import Mathlib

/-!
# Verification of the Company-Policy-RAG core pipeline

Shallow embedding of `src/app/ingest.py` and `src/app/rag.py`.

Modelling conventions:
* Python strings are lists of characters (`Str`); Python `len`, slicing
  `s[a:b]` (with `0 ≤ a ≤ b`), `str.strip()` and `"sep".join` are modelled
  directly on lists.
* The sliding-window loop of `chunk_text` and the batched embedding loop of
  `ingest_pdf` are written with an explicit fuel argument so that they are
  structurally recursive (the fuel passed by the entry points is always
  sufficient when `overlap < chunk_size`, resp. `1 ≤ batch_size`, which the
  source validates before entering the loop).
* Fallible Python code (`raise`) is modelled with `Except`.
* External services (pypdf page extraction, SentenceTransformer, Chroma, the
  Ollama LLM) are modelled as inputs: a list of per-page extracted texts, a
  pure per-text embedding function, an explicit row store with a scoring
  function, and an opaque `llm : Str → Str → Str`.
-/

namespace PolicyRAG

/-- Python strings, modelled as lists of characters. -/
abbrev Str := List Char

/-- The whitespace characters removed by Python `str.strip()` (ASCII set). -/
def isSpaceChar (c : Char) : Bool :=
  c == ' ' || c == '\t' || c == '\n' || c == '\r' || c == '\x0b' || c == '\x0c'

/-- Python `s.strip()`: remove leading and trailing whitespace. -/
def pyStrip (l : Str) : Str :=
  ((l.dropWhile isSpaceChar).reverse.dropWhile isSpaceChar).reverse

/-- Python `s[a:b]` for `0 ≤ a ≤ b`. -/
def sliceL (t : Str) (a b : Nat) : Str :=
  (t.drop a).take (b - a)

/-!
## Chunker (src/app/ingest.py, `chunk_text`, lines 47-75)

The loop body: `end = min(start + chunk_size, n)`, `chunk =
text[start:end].strip()`, append the chunk if non-empty, stop when `end == n`,
otherwise `start = max(0, end - overlap)` (automatic with `Nat` subtraction).
-/

/-- The sliding-window loop of `chunk_text`.  `fuel` only forces structural
recursion; every non-final iteration advances `start` by
`chunk_size - overlap ≥ 1` when `overlap < chunk_size`, so the fuel
`t.length` supplied by `chunk_text` never runs out. -/
def chunkGo (t : Str) (csize ov : Nat) : Nat → Nat → List Str
  | 0, _ => []
  | fuel + 1, start =>
    if start < t.length then
      let e := min (start + csize) t.length
      let c := pyStrip (sliceL t start e)
      let rest := if e = t.length then [] else chunkGo t csize ov fuel (e - ov)
      if c = [] then rest else c :: rest
    else []

/-- The `[start, end)` windows visited by the iterations of `chunk_text`'s
sliding-window loop (same recursion as `chunkGo`, recording the window
bounds instead of the trimmed chunk). -/
def chunkWindows (n csize ov : Nat) : Nat → Nat → List (Nat × Nat)
  | 0, _ => []
  | fuel + 1, start =>
    if start < n then
      let e := min (start + csize) n
      (start, e) :: (if e = n then [] else chunkWindows n csize ov fuel (e - ov))
    else []

/-- The chunker `chunk_text(text, chunk_size, overlap)` (src/app/ingest.py lines 47-75):
strip the input, return `[]` when nothing remains, reject
`overlap >= chunk_size` (Python `ValueError`, the spec's `ConfigError`),
otherwise run the sliding-window loop. -/
def chunk_text (text : Str) (chunk_size overlap : Nat) : Except String (List Str) :=
  let t := pyStrip text
  if t = [] then Except.ok []
  else if chunk_size ≤ overlap then
    Except.error ("overlap must be smaller than chunk_size")
  else Except.ok (chunkGo t chunk_size overlap t.length 0)

/-!
## PDF extraction and the ingestion pipeline
(src/app/ingest.py, `extract_text_from_pdf` lines 27-44, `ingest_pdf` lines 78-157)

A PDF is modelled by the list of per-page extracted texts that pypdf produces
(a page whose `extract_text()` raises contributes `""`, exactly as the
source's `except` clause does).
-/

/-- The page marker the extractor prepends to page `i` (0-based):
`f"\n\n--- Page {i+1} ---\n"`. -/
def pageMarker (i : Nat) : Str :=
  ("\n\n--- Page ".data) ++ (Nat.repr (i + 1)).data ++ (" ---\n".data)

/-- The extractor `extract_text_from_pdf` (src/app/ingest.py lines 27-44): concatenate the
page-marker-prefixed page texts and strip the result. -/
def extract_text_from_pdf (pages : List Str) : Str :=
  pyStrip ((pages.enum.map (fun p => pageMarker p.1 ++ p.2)).foldr (· ++ ·) [])

/-- The error taxonomy of `ingest_pdf` past the file-existence check
(each a Python `ValueError` in the source; the spec names them
`NoTextExtractedError`, `ConfigError` and `ChunkingError`). -/
inductive IngestError where
  | noTextExtracted
  | configError (msg : String)
  | chunkingError
deriving DecidableEq

/-- The pipeline `ingest_pdf` (src/app/ingest.py lines 78-157) up to the point where the
chunk documents are handed to the external embedding model and Chroma:
extract, guard against empty text, chunk, guard against zero chunks.  An
`Except.ok` result carries the chunk documents that proceed to embedding and
indexing. -/
def ingest_pdf (pages : List Str) (chunk_size overlap : Nat) :
    Except IngestError (List Str) :=
  let text := extract_text_from_pdf pages
  if pyStrip text = [] then Except.error IngestError.noTextExtracted
  else
    match chunk_text text chunk_size overlap with
    | Except.error m => Except.error (IngestError.configError m)
    | Except.ok [] => Except.error IngestError.chunkingError
    | Except.ok cs => Except.ok cs

/-!
## Batched embedding (src/app/ingest.py, `ingest_pdf` lines 134-138)

The embedding provider (`SentenceTransformer.encode`) is modelled as a pure
per-text function `f`; `model.encode(batch)` is `batch.map f`.
-/

/-- The batched embedding loop
`for start in range(0, len(documents), batch_size): ... extend(encode(batch))`,
with fuel for structural recursion (fuel `docs.length` suffices when
`1 ≤ bs`). -/
def batchedEncodeGo {α β : Type} (f : α → β) (bs : Nat) : Nat → List α → List β
  | _, [] => []
  | 0, _ => []
  | fuel + 1, docs => (docs.take bs).map f ++ batchedEncodeGo f bs fuel (docs.drop bs)

/-- All embeddings produced by `ingest_pdf`'s batched loop. -/
def batchedEncode {α β : Type} (f : α → β) (bs : Nat) (docs : List α) : List β :=
  batchedEncodeGo f bs docs.length docs

/-!
## Data model of the vector store and retrieval (src/app/rag.py)

`ingest_pdf` stores each chunk with metadata
`{company_id, doc_name, chunk_idx, source_file}` (src/app/ingest.py lines
120-130); retrieval reads the same four keys back.
-/

/-- The metadata dict stored per chunk (src/app/ingest.py lines 122-129). -/
structure Metadata where
  company_id : Str
  doc_name : Str
  chunk_idx : Nat
  source_file : Str
deriving DecidableEq

/-- One row of the Chroma collection: id, document text, metadata. -/
structure Row where
  id : Str
  document : Str
  metadata : Metadata
deriving DecidableEq

/-- The dataclass `RetrievedChunk` (src/app/rag.py lines 53-57); the Chroma
distance is abstracted to an `Int` score (smaller = closer). -/
structure RetrievedChunk where
  text : Str
  metadata : Metadata
  score : Option Int
deriving DecidableEq

/-- Insert a row into a score-sorted list (helper for the modelled index). -/
def insertSorted (score : Row → Int) (r : Row) : List Row → List Row
  | [] => [r]
  | x :: xs => if score r ≤ score x then r :: x :: xs else x :: insertSorted score r xs

/-- Sort rows by ascending score (smaller = closer). -/
def sortByScore (score : Row → Int) : List Row → List Row
  | [] => []
  | x :: xs => insertSorted score x (sortByScore score xs)

/-- Modelled from the spec: the Vector Index (`collection.query`, an external
Chroma service, spec §4.4) restricts results to rows whose metadata matches
the filter `where={"company_id": company_id}` exactly, ranks them by the
index's scoring of the query embedding (abstracted as `score : Row → Int`,
smaller = closer), and returns at most `k` of them. -/
def indexQuery (store : List Row) (score : Row → Int) (k : Nat) (company_id : Str) :
    List Row :=
  (sortByScore score (store.filter (fun r => decide (r.metadata.company_id = company_id)))).take k

/-- The retriever `retrieve_chunks` (src/app/rag.py lines 63-97): query the index filtered
to `company_id` and repackage each raw result as a `RetrievedChunk` (the
documents/metadatas/distances lists returned by one query have equal
length, so the index-bound guards of lines 93-94 never substitute). -/
def retrieve_chunks (store : List Row) (score : Row → Int) (company_id : Str) (k : Nat) :
    List RetrievedChunk :=
  (indexQuery store score k company_id).map
    (fun r => ⟨r.document, r.metadata, some (score r)⟩)

/-!
## Context builder (src/app/rag.py, `build_context_block`, lines 100-128)
-/

/-- The provenance header of one context block (lines 113-116); with the
metadata always carrying its four keys, the `.get` defaults of lines
109-111 never substitute, and the `if source_file:` test is an emptiness
test. -/
def ctxHeader (m : Metadata) : Str :=
  ("[Source: ".data) ++ m.doc_name ++ (" | chunk ".data) ++ (Nat.repr m.chunk_idx).data ++
    (if m.source_file = [] then [] else (" | file ".data) ++ m.source_file) ++ ("]\n".data)

/-- The accumulation loop of `build_context_block` (lines 108-126): stop
before a block that would push `used` past `max_chars`, but append its
prefix when more than 200 characters of budget remain. -/
def bccGo (max_chars : Nat) : Nat → List RetrievedChunk → List Str
  | _, [] => []
  | used, ch :: rest =>
    let block := ctxHeader ch.metadata ++ pyStrip ch.text ++ ("\n".data)
    if max_chars < used + block.length then
      if 200 < max_chars - used then [block.take (max_chars - used)] else []
    else block :: bccGo max_chars (used + block.length) rest

/-- Python `"sep".join(parts)`. -/
def joinSep (sep : Str) : List Str → Str
  | [] => []
  | [p] => p
  | p :: ps => p ++ sep ++ joinSep sep ps

/-- The context builder `build_context_block(chunks, max_chars)` (src/app/rag.py lines 100-128):
`"\n---\n".join(parts).strip()` over the accumulated blocks. -/
def build_context_block (chunks : List RetrievedChunk) (max_chars : Nat) : Str :=
  pyStrip (joinSep ("\n---\n".data) (bccGo max_chars 0 chunks))

/-!
## Answer synthesis (src/app/rag.py, `answer_question`, lines 134-201)

The Ollama backend (`call_llm`) is an external HTTP service, modelled as an
opaque function `llm : Str → Str → Str` of the system and user prompts.
-/

/-- The system prompt of `answer_question` (lines 159-167). -/
def system_prompt : Str :=
  ("You are a company policy assistant.\nYou MUST answer strictly using the provided policy context.\nDo NOT invent policy details.\nIf the policy context does not clearly contain the answer, say:\n  \x27I can\x27t find this explicitly in the provided policy documents.\x27\nand suggest contacting HR / the policy owner.\nWhen you provide an answer, reference the relevant Source labels.").data

/-- The user prompt of `answer_question` (lines 169-180): the f-string
carrying the context and the question, stripped. -/
def user_prompt (context question : Str) : Str :=
  pyStrip (("\nCompany Policy Context:\n".data) ++ context ++
    ("\n\nEmployee Question:\n".data) ++ question ++
    ("\n\nInstructions:\n- Answer using ONLY the Company Policy Context.\n- If the answer is not clearly present, say you can\x27t find it in the provided docs.\n- Include 1â€“3 short citations like: (Source: <doc_name> | chunk <idx>)".data))

/-- One entry of the compact source list (lines 190-198). -/
structure SourceEntry where
  doc_name : Str
  chunk_idx : Nat
  source_file : Str
  score : Option Int
deriving DecidableEq

/-- The result dict of `answer_question`: always an `"answer"` key, a
`"sources"` key only when requested (modelled with `Option`). -/
structure AnswerResult where
  answer : Str
  sources : Option (List SourceEntry)
deriving DecidableEq

/-- The synthesizer `answer_question` (src/app/rag.py lines 134-201): retrieve, build the
context with the default budget 12000, call the LLM, and attach the compact
source list when `return_sources` is set. -/
def answer_question (store : List Row) (score : Row → Int) (llm : Str → Str → Str)
    (company_id question : Str) (k : Nat) (return_sources : Bool) : AnswerResult :=
  let retrieved := retrieve_chunks store score company_id k
  let context := build_context_block retrieved 12000
  let llm_text := llm system_prompt (user_prompt context question)
  if return_sources then
    ⟨llm_text, some (retrieved.map
      (fun ch => ⟨ch.metadata.doc_name, ch.metadata.chunk_idx, ch.metadata.source_file, ch.score⟩))⟩
  else
    ⟨llm_text, none⟩

/-- The relation between two consecutive windows of `chunk_text`'s loop: the
second window starts exactly `overlap` characters before the first ends, the
last `overlap` characters of the first window's slice are the first
`overlap` characters of the second window's slice, and that shared slice of
the text has length exactly `overlap`. -/
def windowOverlapR (t : Str) (ov : Nat) (w wp : Nat × Nat) : Prop :=
  wp.1 + ov = w.2 ∧ w.2 < wp.2 ∧
  (sliceL t w.1 w.2).drop (w.2 - w.1 - ov) = sliceL t wp.1 w.2 ∧
  (sliceL t wp.1 wp.2).take ov = sliceL t wp.1 w.2 ∧
  (sliceL t wp.1 w.2).length = ov

/-- A constant ranking, used to instantiate theorems at concrete stores. -/
def constScore : Row → Int := fun _ => 0

/-- A constant language-model backend, used to instantiate theorems. -/
def constLLM : Str → Str → Str :=
  fun _ _ => ("I can\x27t find this explicitly in the provided policy documents.".data)

/-!
## Lemmas about `pyStrip`
-/

theorem headNot_dropWhile {α : Type} (p : α → Bool) (l : List α) :
    ∀ c, (l.dropWhile p).head? = some c → p c = false := by
  induction l with
  | nil => intro c hc; simp [List.dropWhile] at hc
  | cons a l ih =>
    intro c hc
    rw [List.dropWhile_cons] at hc
    by_cases ha : p a = true
    · exact ih c (by simpa [ha] using hc)
    · rw [if_neg ha] at hc
      simp only [List.head?_cons, Option.some.injEq] at hc
      subst hc
      simpa using ha

theorem dropWhile_eq_self_of_headNot {α : Type} (p : α → Bool) (l : List α)
    (h : ∀ c, l.head? = some c → p c = false) : l.dropWhile p = l := by
  cases l with
  | nil => rfl
  | cons a l => rw [List.dropWhile_cons, h a rfl]; simp

theorem pyStrip_prefix_dropWhile (l : Str) :
    pyStrip l <+: l.dropWhile isSpaceChar := by
  unfold pyStrip
  have h := List.reverse_prefix.mpr
    (List.dropWhile_suffix (l := (l.dropWhile isSpaceChar).reverse) isSpaceChar)
  simpa using h

theorem head?_pyStrip (l : Str) :
    ∀ c, (pyStrip l).head? = some c → isSpaceChar c = false := by
  intro c hc
  have hne : pyStrip l ≠ [] := by
    intro h; rw [h] at hc; simp at hc
  obtain ⟨t, ht⟩ := pyStrip_prefix_dropWhile l
  have : (l.dropWhile isSpaceChar).head? = some c := by
    rw [← ht, List.head?_append_of_ne_nil _ hne, hc]
  exact headNot_dropWhile isSpaceChar l c this

theorem getLast?_pyStrip (l : Str) :
    ∀ c, (pyStrip l).getLast? = some c → isSpaceChar c = false := by
  intro c hc
  unfold pyStrip at hc
  rw [List.getLast?_reverse] at hc
  exact headNot_dropWhile isSpaceChar _ c hc

theorem pyStrip_idem (l : Str) : pyStrip (pyStrip l) = pyStrip l := by
  have h1 : (pyStrip l).dropWhile isSpaceChar = pyStrip l :=
    dropWhile_eq_self_of_headNot _ _ (head?_pyStrip l)
  have h2 : (pyStrip l).reverse.dropWhile isSpaceChar = (pyStrip l).reverse := by
    apply dropWhile_eq_self_of_headNot
    intro c hc
    rw [List.head?_reverse] at hc
    exact getLast?_pyStrip l c hc
  show ((((pyStrip l).dropWhile isSpaceChar).reverse).dropWhile isSpaceChar).reverse = pyStrip l
  rw [h1, h2, List.reverse_reverse]

theorem length_pyStrip_le (l : Str) : (pyStrip l).length ≤ l.length :=
  ((pyStrip_prefix_dropWhile l).sublist.length_le).trans
    ((List.dropWhile_suffix isSpaceChar).sublist.length_le)

/-!
## Lemmas about slices
-/

theorem sliceL_drop (t : Str) (a m b : Nat) (ham : a ≤ m) :
    (sliceL t a b).drop (m - a) = sliceL t m b := by
  unfold sliceL
  rw [List.drop_take, List.drop_drop]
  have e1 : a + (m - a) = m := by omega
  have e2 : b - a - (m - a) = b - m := by omega
  rw [e1, e2]

theorem sliceL_take (t : Str) (m b bp : Nat) (hbb : b ≤ bp) :
    (sliceL t m bp).take (b - m) = sliceL t m b := by
  unfold sliceL
  rw [List.take_take, min_eq_left (by omega)]

theorem sliceL_length (t : Str) (m b : Nat) (hb : b ≤ t.length) :
    (sliceL t m b).length = b - m := by
  unfold sliceL
  rw [List.length_take, List.length_drop, min_eq_left (by omega)]

theorem sliceL_length_le (t : Str) (a b : Nat) :
    (sliceL t a b).length ≤ b - a := by
  unfold sliceL
  rw [List.length_take, List.length_drop]
  exact min_le_left _ _

/-!
## Lemmas about the sliding-window loop
-/

/-- Each iteration of the loop emits (when non-whitespace) exactly the
trimmed slice of the window it visits: `chunkGo` is the window trace
`chunkWindows`, sliced, trimmed, with whitespace-only windows dropped. -/
theorem chunkGo_eq_windows (t : Str) (csize ov : Nat) :
    ∀ fuel start,
      chunkGo t csize ov fuel start =
        ((chunkWindows t.length csize ov fuel start).map
          (fun w => pyStrip (sliceL t w.1 w.2))).filter (fun c => decide (c ≠ [])) := by
  intro fuel
  induction fuel with
  | zero => intro start; simp [chunkGo, chunkWindows]
  | succ fuel ih =>
    intro start
    by_cases hs : start < t.length
    · simp only [chunkGo, chunkWindows, if_pos hs, List.map_cons, List.filter_cons]
      by_cases hc : pyStrip (sliceL t start (min (start + csize) t.length)) = []
      · rw [if_pos hc]
        simp only [hc, decide_not]
        by_cases he : min (start + csize) t.length = t.length
        · simp [he]
        · simp [he, ih]
      · rw [if_neg hc]
        simp only [decide_not]
        by_cases he : min (start + csize) t.length = t.length
        · rw [he] at hc
          simp [he, hc]
        · simp [he, hc, ih]
    · simp [chunkGo, chunkWindows, hs]

/-- Every position of the text from `start` on is covered by some window of
the loop started at `start` (given enough fuel and a valid configuration). -/
theorem chunkWindows_cover (n csize ov : Nat) (hov : ov < csize) :
    ∀ fuel start i, n - start ≤ fuel → start ≤ i → i < n →
      ∃ w ∈ chunkWindows n csize ov fuel start, w.1 ≤ i ∧ i < w.2 := by
  intro fuel
  induction fuel with
  | zero => intro start i hfuel hsi hin; omega
  | succ fuel ih =>
    intro start i hfuel hsi hin
    have hs : start < n := by omega
    simp only [chunkWindows, if_pos hs]
    have hmin : min (start + csize) n = start + csize ∨ min (start + csize) n = n := by
      rw [Nat.min_def]; split <;> simp
    by_cases hie : i < min (start + csize) n
    · exact ⟨(start, min (start + csize) n), List.mem_cons_self _ _, hsi, hie⟩
    · have hei : min (start + csize) n ≤ i := by omega
      have hen : min (start + csize) n < n := by omega
      have he : min (start + csize) n = start + csize := by omega
      rw [if_neg (by omega)]
      obtain ⟨w, hw, hcov⟩ := ih (min (start + csize) n - ov) i (by omega) (by omega) hin
      exact ⟨w, List.mem_cons_of_mem _ hw, hcov⟩

/-- Consecutive windows of the sliding-window loop always overlap in exactly
`overlap` characters of the text. -/
theorem chunkWindows_chain (t : Str) (csize ov : Nat) (hov : ov < csize) :
    ∀ fuel start, t.length - start ≤ fuel →
      List.Chain' (windowOverlapR t ov) (chunkWindows t.length csize ov fuel start) := by
  intro fuel
  induction fuel with
  | zero => intro start hfuel; simp [chunkWindows]
  | succ fuel ih =>
    intro start hfuel
    by_cases hs : start < t.length
    · simp only [chunkWindows, if_pos hs]
      have hmin : min (start + csize) t.length = start + csize ∨
          min (start + csize) t.length = t.length := by
        rw [Nat.min_def]; split <;> simp
      by_cases he : min (start + csize) t.length = t.length
      · rw [if_pos he]
        exact List.chain'_singleton _
      · rw [if_neg he]
        have heq : min (start + csize) t.length = start + csize := by
          rcases hmin with h | h
          · exact h
          · exact absurd h he
        have hlt : start + csize < t.length := by omega
        apply List.chain'_cons'.mpr
        refine ⟨?_, ih _ (by omega)⟩
        intro y hy
        have hfuel1 : 1 ≤ fuel := by omega
        obtain ⟨fuel', rfl⟩ : ∃ f, fuel = f + 1 := ⟨fuel - 1, by omega⟩
        have hs2 : min (start + csize) t.length - ov < t.length := by omega
        simp only [chunkWindows, if_pos hs2, List.head?_cons, Option.mem_def,
          Option.some.injEq] at hy
        subst hy
        constructor
        · simp; omega
        constructor
        · show min (start + csize) t.length <
            min (min (start + csize) t.length - ov + csize) t.length
          apply lt_min <;> omega
        constructor
        · show (sliceL t start (min (start + csize) t.length)).drop
              (min (start + csize) t.length - start - ov) =
            sliceL t (min (start + csize) t.length - ov) (min (start + csize) t.length)
          have := sliceL_drop t start (min (start + csize) t.length - ov)
            (min (start + csize) t.length) (by omega)
          rw [← this]
          congr 1
          omega
        constructor
        · show (sliceL t (min (start + csize) t.length - ov)
              (min (min (start + csize) t.length - ov + csize) t.length)).take ov =
            sliceL t (min (start + csize) t.length - ov) (min (start + csize) t.length)
          have := sliceL_take t (min (start + csize) t.length - ov)
            (min (start + csize) t.length)
            (min (min (start + csize) t.length - ov + csize) t.length)
            (le_min (by omega) (by omega))
          rw [← this]
          congr 1
          omega
        · show (sliceL t (min (start + csize) t.length - ov)
              (min (start + csize) t.length)).length = ov
          rw [sliceL_length t _ _ (by omega)]
          omega
    · simp [chunkWindows, hs]

/-- Every chunk emitted by the loop is non-empty, fully trimmed, and at most
`chunk_size` characters long. -/
theorem chunkGo_shape (t : Str) (csize ov : Nat) :
    ∀ fuel start c, c ∈ chunkGo t csize ov fuel start →
      c ≠ [] ∧ pyStrip c = c ∧ c.length ≤ csize := by
  intro fuel
  induction fuel with
  | zero => intro start c hc; simp [chunkGo] at hc
  | succ fuel ih =>
    intro start c hc
    by_cases hs : start < t.length
    · simp only [chunkGo, if_pos hs] at hc
      by_cases hcc : pyStrip (sliceL t start (min (start + csize) t.length)) = []
      · rw [if_pos hcc] at hc
        by_cases he : min (start + csize) t.length = t.length
        · rw [if_pos he] at hc; simp at hc
        · rw [if_neg he] at hc; exact ih _ c hc
      · rw [if_neg hcc] at hc
        rcases List.mem_cons.mp hc with rfl | hc2
        · refine ⟨hcc, pyStrip_idem _, ?_⟩
          calc (pyStrip (sliceL t start (min (start + csize) t.length))).length
              ≤ (sliceL t start (min (start + csize) t.length)).length :=
                length_pyStrip_le _
            _ ≤ min (start + csize) t.length - start := sliceL_length_le _ _ _
            _ ≤ csize := by
                have := Nat.min_le_left (start + csize) t.length; omega
        · by_cases he : min (start + csize) t.length = t.length
          · rw [if_pos he] at hc2; simp at hc2
          · rw [if_neg he] at hc2; exact ih _ c hc2
    · simp [chunkGo, hs] at hc

/-!
## Lemmas about the modelled index ranking
-/

theorem mem_insertSorted (score : Row → Int) (r a : Row) :
    ∀ l, a ∈ insertSorted score r l ↔ a = r ∨ a ∈ l := by
  intro l
  induction l with
  | nil => simp [insertSorted]
  | cons x xs ih =>
    simp only [insertSorted]
    split
    · simp
    · simp only [List.mem_cons, ih]
      tauto

theorem mem_sortByScore (score : Row → Int) (a : Row) :
    ∀ l, a ∈ sortByScore score l ↔ a ∈ l := by
  intro l
  induction l with
  | nil => simp [sortByScore]
  | cons x xs ih =>
    simp only [sortByScore, mem_insertSorted, ih, List.mem_cons]

theorem length_insertSorted (score : Row → Int) (r : Row) :
    ∀ l, (insertSorted score r l).length = l.length + 1 := by
  intro l
  induction l with
  | nil => rfl
  | cons x xs ih =>
    simp only [insertSorted]
    split
    · rfl
    · simp [ih]

theorem length_sortByScore (score : Row → Int) :
    ∀ l, (sortByScore score l).length = l.length := by
  intro l
  induction l with
  | nil => rfl
  | cons x xs ih =>
    simp only [sortByScore, length_insertSorted, ih, List.length_cons]

/-!
## Claim theorems
-/

/-- C1: Tenant isolation — every chunk returned by a retrieval scoped to
tenant `A` carries metadata `company_id = A`, so for any other tenant `B`
(even one that ingested a document with the identical `doc_name`) none of
`B`'s chunks is ever returned, for all stores, rankings and queries. -/
theorem retrieve_chunks_tenant_isolation (store : List Row) (score : Row → Int)
    (A B : Str) (k : Nat) (hne : B ≠ A) :
    ∀ c ∈ retrieve_chunks store score A k,
      c.metadata.company_id = A ∧ c.metadata.company_id ≠ B := by
  intro c hc
  simp only [retrieve_chunks, indexQuery, List.mem_map] at hc
  obtain ⟨r, hr, rfl⟩ := hc
  have hr2 : r ∈ sortByScore score
      (store.filter (fun r => decide (r.metadata.company_id = A))) :=
    (List.take_sublist _ _).subset hr
  have hr3 : r ∈ store.filter (fun r => decide (r.metadata.company_id = A)) :=
    (mem_sortByScore score r _).mp hr2
  have heq : r.metadata.company_id = A := of_decide_eq_true (List.mem_filter.mp hr3).2
  exact ⟨heq, by rw [heq]; exact fun h => hne h.symm⟩

theorem retrieve_chunks_tenant_isolation_witness :
    ("B".data) ≠ ("A".data) ∧
    (⟨("alpha policy text".data),
        ⟨("A".data), ("handbook".data), 0, ("handbook.pdf".data)⟩, some 0⟩ : RetrievedChunk) ∈
      retrieve_chunks
        [⟨("A::handbook::0".data), ("alpha policy text".data),
            ⟨("A".data), ("handbook".data), 0, ("handbook.pdf".data)⟩⟩,
         ⟨("B::handbook::0".data), ("beta policy text".data),
            ⟨("B".data), ("handbook".data), 0, ("handbook.pdf".data)⟩⟩]
        constScore ("A".data) 5 ∧
    ((⟨("alpha policy text".data),
        ⟨("A".data), ("handbook".data), 0, ("handbook.pdf".data)⟩,
        some 0⟩ : RetrievedChunk).metadata.company_id = ("A".data) ∧
     (⟨("alpha policy text".data),
        ⟨("A".data), ("handbook".data), 0, ("handbook.pdf".data)⟩,
        some 0⟩ : RetrievedChunk).metadata.company_id ≠ ("B".data)) :=
  ⟨by decide, by decide,
   retrieve_chunks_tenant_isolation
     [⟨("A::handbook::0".data), ("alpha policy text".data),
         ⟨("A".data), ("handbook".data), 0, ("handbook.pdf".data)⟩⟩,
      ⟨("B::handbook::0".data), ("beta policy text".data),
         ⟨("B".data), ("handbook".data), 0, ("handbook.pdf".data)⟩⟩]
     constScore ("A".data) ("B".data) 5 (by decide) _ (by decide)⟩

/-- C8: Fewer-than-k results are not an error — when at most `k` rows match
the tenant filter, `retrieve_chunks` returns exactly the matching rows (the
shorter, possibly empty, sequence) and `answer_question` still invokes the
language model on the assembled prompts and returns its text as the answer;
both functions are total, so no exception is raised. -/
theorem retrieve_fewer_than_k_ok (store : List Row) (score : Row → Int)
    (llm : Str → Str → Str) (company_id question : Str) (k : Nat)
    (return_sources : Bool)
    (h : (store.filter (fun r => decide (r.metadata.company_id = company_id))).length ≤ k) :
    (retrieve_chunks store score company_id k).length =
      (store.filter (fun r => decide (r.metadata.company_id = company_id))).length ∧
    (answer_question store score llm company_id question k return_sources).answer =
      llm system_prompt (user_prompt
        (build_context_block (retrieve_chunks store score company_id k) 12000)
        question) := by
  constructor
  · simp only [retrieve_chunks, indexQuery, List.length_map, List.length_take,
      length_sortByScore]
    exact min_eq_right h
  · cases return_sources <;> rfl

theorem retrieve_fewer_than_k_ok_witness :
    (retrieve_chunks [] constScore ("acme".data) 5).length =
      (List.filter (fun r => decide (r.metadata.company_id = ("acme".data)))
        ([] : List Row)).length ∧
    (answer_question [] constScore constLLM ("acme".data)
        ("what is the leave policy?".data) 5 true).answer =
      constLLM system_prompt (user_prompt
        (build_context_block (retrieve_chunks [] constScore ("acme".data) 5) 12000)
        ("what is the leave policy?".data)) :=
  retrieve_fewer_than_k_ok [] constScore constLLM ("acme".data)
    ("what is the leave policy?".data) 5 true (by decide)

/-- C9: Sources mirror retrieval — with `return_sources` set, the result's
source list is exactly one entry per retrieved chunk, in retrieval order,
carrying that chunk's `doc_name`, `chunk_idx`, `source_file` and score; it
does not depend on the language model's output; with `return_sources`
unset, no sources are present. -/
theorem answer_question_sources_mirror_retrieval (store : List Row)
    (score : Row → Int) (llm llm2 : Str → Str → Str)
    (company_id question : Str) (k : Nat) :
    (answer_question store score llm company_id question k true).sources =
      some ((retrieve_chunks store score company_id k).map
        (fun ch => (⟨ch.metadata.doc_name, ch.metadata.chunk_idx,
          ch.metadata.source_file, ch.score⟩ : SourceEntry))) ∧
    (answer_question store score llm company_id question k true).sources =
      (answer_question store score llm2 company_id question k true).sources ∧
    (answer_question store score llm company_id question k false).sources = none :=
  ⟨rfl, rfl, rfl⟩

/-- C2: the context budget is NOT respected by the code.  With two chunks
whose blocks are 24 characters each and `max_chars = 48`, the accumulator
`used` admits both blocks (24 + 24 = 48 ≤ 48), but the final
`"\n---\n".join` adds a 5-character separator that is never counted against
the budget, so the returned string has 52 > 48 characters. -/
theorem build_context_block_exceeds_budget :
    (build_context_block
      [⟨("x".data), ⟨("a".data), ("d".data), 0, []⟩, none⟩,
       ⟨("x".data), ⟨("a".data), ("d".data), 0, []⟩, none⟩] 48).length = 52 ∧
    48 < 52 :=
  ⟨rfl, by omega⟩

/-- C3 counterexample: `chunk_text` strips the input and returns `[]` for
empty/whitespace-only text BEFORE validating the parameters, so with
`chunk_size = 100, overlap = 100` and whitespace-only input it succeeds
instead of failing with `ConfigError`. -/
theorem chunk_text_empty_text_skips_validation :
    chunk_text ("   ".data) 100 100 = Except.ok [] := rfl

/-- C3 (amended): for input that is non-empty after stripping,
`overlap >= chunk_size` fails with `ConfigError` and `overlap < chunk_size`
succeeds; for empty/whitespace-only input `chunk_text` returns `[]` without
validating the parameters. -/
theorem chunk_text_config_validation (text : Str) (chunk_size overlap : Nat) :
    (pyStrip text ≠ [] → chunk_size ≤ overlap →
      chunk_text text chunk_size overlap =
        Except.error ("overlap must be smaller than chunk_size")) ∧
    (pyStrip text = [] → chunk_text text chunk_size overlap = Except.ok []) ∧
    (overlap < chunk_size →
      ∃ cs, chunk_text text chunk_size overlap = Except.ok cs) := by
  refine ⟨?_, ?_, ?_⟩
  · intro hne hle
    simp only [chunk_text]
    rw [if_neg hne, if_pos hle]
  · intro he
    simp only [chunk_text]
    rw [if_pos he]
  · intro hlt
    simp only [chunk_text]
    by_cases he : pyStrip text = []
    · rw [if_pos he]; exact ⟨[], rfl⟩
    · rw [if_neg he, if_neg (by omega)]
      exact ⟨_, rfl⟩

theorem chunk_text_config_validation_witness :
    chunk_text ("a".data) 100 100 =
      Except.error ("overlap must be smaller than chunk_size") ∧
    chunk_text ("".data) 100 100 = Except.ok [] ∧
    ∃ cs, chunk_text ("a".data) 100 99 = Except.ok cs :=
  ⟨(chunk_text_config_validation ("a".data) 100 100).1 (by decide) (by decide),
   (chunk_text_config_validation ("".data) 100 100).2.1 (by decide),
   (chunk_text_config_validation ("a".data) 100 99).2.2 (by decide)⟩

/-- C4: Chunk coverage — for a valid configuration and non-empty stripped
input, `chunk_text` emits exactly the trimmed slices of the loop's
`[start, end)` windows (dropping whitespace-only ones), and every character
position of the stripped text lies inside at least one of those windows, so
no character is skipped except whitespace removed by per-chunk trimming. -/
theorem chunk_text_coverage (text : Str) (chunk_size overlap : Nat)
    (hov : overlap < chunk_size) (hne : pyStrip text ≠ []) :
    chunk_text text chunk_size overlap =
      Except.ok (((chunkWindows (pyStrip text).length chunk_size overlap
          (pyStrip text).length 0).map
        (fun w => pyStrip (sliceL (pyStrip text) w.1 w.2))).filter
          (fun c => decide (c ≠ []))) ∧
    ∀ i, i < (pyStrip text).length →
      ∃ w ∈ chunkWindows (pyStrip text).length chunk_size overlap
          (pyStrip text).length 0, w.1 ≤ i ∧ i < w.2 := by
  constructor
  · simp only [chunk_text]
    rw [if_neg hne, if_neg (by omega), chunkGo_eq_windows]
  · intro i hi
    exact chunkWindows_cover (pyStrip text).length chunk_size overlap hov
      (pyStrip text).length 0 i (by omega) (Nat.zero_le i) hi

theorem chunk_text_coverage_witness :
    6 < (pyStrip ("hello world".data)).length ∧
    ∃ w ∈ chunkWindows (pyStrip ("hello world".data)).length 4 1
        (pyStrip ("hello world".data)).length 0, w.1 ≤ 6 ∧ 6 < w.2 :=
  ⟨by decide,
   (chunk_text_coverage ("hello world".data) 4 1 (by decide) (by decide)).2 6
     (by decide)⟩

/-- C5: the no-text guard of `ingest_pdf` never fires for a document with at
least one page, because `extract_text_from_pdf` prefixes every page with the
non-whitespace marker `--- Page i ---`.  A one-page document whose page
yields empty text produces the extracted text `--- Page 1 ---`, and
ingestion proceeds to chunk (and then index) the marker itself instead of
failing with `NoTextExtractedError`. -/
theorem ingest_pdf_empty_pages_proceeds :
    extract_text_from_pdf [[]] = ("--- Page 1 ---".data) ∧
    ingest_pdf [[]] 1200 200 = Except.ok [("--- Page 1 ---".data)] :=
  ⟨rfl, rfl⟩

/-- C6 counterexample: on `"ab de"` with `chunk_size = 3, overlap = 1` the
produced chunks are `["ab", "de"]`; the one-character tail of chunk 0 is
`"b"` and the one-character head of chunk 1 is `"d"` — not the same
characters, because the shared overlap character (the interior space at
position 2, not a text boundary) was trimmed from both chunks. -/
theorem chunk_overlap_counterexample :
    chunk_text ("ab de".data) 3 1 = Except.ok [("ab".data), ("de".data)] ∧
    ("ab".data).drop (("ab".data).length - 1) ≠ ("de".data).take 1 :=
  ⟨rfl, by decide⟩

/-- C6 (amended): consecutive windows of `chunk_text`'s sliding loop share
exactly `overlap` characters of the stripped text — the last `overlap`
characters of each non-final window's slice equal the first `overlap`
characters of the next window's slice, as one `overlap`-length slice of the
text.  Per-chunk trimming may afterwards remove whitespace from this shared
region anywhere in the text, and whitespace-only windows are dropped. -/
theorem chunk_windows_overlap (text : Str) (chunk_size overlap : Nat)
    (hov : overlap < chunk_size) :
    List.Chain' (windowOverlapR (pyStrip text) overlap)
      (chunkWindows (pyStrip text).length chunk_size overlap
        (pyStrip text).length 0) :=
  chunkWindows_chain (pyStrip text) chunk_size overlap hov
    (pyStrip text).length 0 (by omega)

theorem chunk_windows_overlap_witness :
    List.Chain' (windowOverlapR (pyStrip ("ab de".data)) 1)
      (chunkWindows (pyStrip ("ab de".data)).length 3 1
        (pyStrip ("ab de".data)).length 0) :=
  chunk_windows_overlap ("ab de".data) 3 1 (by decide)

/-- C7: Batch-size independence — with the embedding provider modelled as a
pure per-text function, the batched embedding loop of `ingest_pdf` produces
one embedding per document in input order, equal to a single-batch
encoding, for every batch size `>= 1`. -/
theorem batched_encode_eq_map {α β : Type} (f : α → β) (bs : Nat)
    (docs : List α) (hbs : 1 ≤ bs) : batchedEncode f bs docs = docs.map f := by
  have H : ∀ fuel (ds : List α), ds.length ≤ fuel →
      batchedEncodeGo f bs fuel ds = ds.map f := by
    intro fuel
    induction fuel with
    | zero =>
      intro ds hds
      cases ds with
      | nil => rfl
      | cons d ds => simp at hds
    | succ fuel ih =>
      intro ds hds
      cases ds with
      | nil => rfl
      | cons d ds =>
        show (List.take bs (d :: ds)).map f ++
            batchedEncodeGo f bs fuel (List.drop bs (d :: ds)) = (d :: ds).map f
        rw [ih (List.drop bs (d :: ds))
            (by
              have hlen : ds.length + 1 ≤ fuel + 1 := by simpa using hds
              rw [List.length_drop]
              simp only [List.length_cons]
              omega),
          ← List.map_append, List.take_append_drop]
  exact H docs.length docs (le_refl _)

theorem batched_encode_eq_map_witness :
    (1 : Nat) ≤ 2 ∧
    batchedEncode Nat.succ 2 [1, 2, 3, 4, 5] = [1, 2, 3, 4, 5].map Nat.succ :=
  ⟨by decide, batched_encode_eq_map Nat.succ 2 [1, 2, 3, 4, 5] (by decide)⟩

/-- C10: Implicit chunk shape — under a valid configuration every chunk
returned by `chunk_text` is non-empty, equals its own strip (no leading or
trailing whitespace), and is at most `chunk_size` characters long. -/
theorem chunk_text_chunk_shape (text : Str) (chunk_size overlap : Nat)
    (hov : overlap < chunk_size) :
    ∀ cs, chunk_text text chunk_size overlap = Except.ok cs →
      ∀ c ∈ cs, c ≠ [] ∧ pyStrip c = c ∧ c.length ≤ chunk_size := by
  intro cs hcs c hc
  simp only [chunk_text] at hcs
  by_cases he : pyStrip text = []
  · rw [if_pos he] at hcs
    injection hcs with h
    subst h
    simp at hc
  · rw [if_neg he, if_neg (by omega)] at hcs
    injection hcs with h
    subst h
    exact chunkGo_shape (pyStrip text) chunk_size overlap _ 0 c hc

theorem chunk_text_chunk_shape_witness :
    ("hi".data) ≠ [] ∧ pyStrip ("hi".data) = ("hi".data) ∧
      ("hi".data).length ≤ 3 :=
  chunk_text_chunk_shape (" hi ".data) 3 1 (by decide) [("hi".data)] rfl
    ("hi".data) (by decide)

end PolicyRAG
